import Mathlib

/-!
Verification of the multi-dimensional aggregation engine in
src/week5/src/core/statistics.js.

The engine's JavaScript values are modelled by a stratified value universe:
a record field holds an atom (null, undefined, boolean, number, string) or a
flat array of atoms, a data-array element is such a field value or an object,
and a top-level input is an array of elements or a single such element.  This
fragment covers every value shape the engine's contract (records with scalar
or flat-array fields) can reach.  JavaScript numbers are modelled as exact
rationals together with the three non-finite values; Array.prototype.sort with
the comparator (a, b) => a - b is modelled as a sort ascending by value, which
agrees with it on the finite numbers the engine feeds it.
-/

/-- A JavaScript number: NaN, the two infinities, or a finite value
(modelled as an exact rational). -/
inductive JSNum where
  | nan : JSNum
  | posInf : JSNum
  | negInf : JSNum
  | fin (q : ℚ) : JSNum
deriving DecidableEq

/-- A primitive JavaScript value. -/
inductive JSAtom where
  | anull : JSAtom
  | aundefined : JSAtom
  | abool (b : Bool) : JSAtom
  | anum (n : JSNum) : JSAtom
  | astr (s : String) : JSAtom
deriving DecidableEq

/-- A value stored in a record field: an atom or a flat array of atoms. -/
inductive JSField where
  | fatom (a : JSAtom) : JSField
  | farr (l : List JSAtom) : JSField
deriving DecidableEq

/-- An element of a top-level data array: a field-shaped value or an object
(a key-ordered association list of fields, as JavaScript objects have no
duplicate keys). -/
inductive JSItem where
  | ifield (f : JSField) : JSItem
  | iobj (fields : List (String × JSField)) : JSItem
deriving DecidableEq

/-- A top-level JavaScript input: an array of items or a non-array value. -/
inductive JSVal where
  | varr (l : List JSItem) : JSVal
  | vitem (i : JSItem) : JSVal
deriving DecidableEq

/-- True for a finite number (JavaScript Number.isFinite: no coercion,
false on every non-number). -/
def JSNum.isFinite : JSNum → Bool
  | .fin _ => true
  | _ => false

/-- JavaScript whitespace accepted around numeric strings. -/
def isJsWs (c : Char) : Bool :=
  c = ' ' || c = '\t' || c = '\n' || c = '\r'

/-- Numeric value of a digit string. -/
def digitsVal (cs : List Char) : ℕ :=
  cs.foldl (fun a c => 10 * a + (c.toNat - '0'.toNat)) 0

/-- Parse an unsigned decimal numeral (digits with an optional single point;
at least one digit).  Other numeric syntaxes (hex, exponents) are outside the
fragment the engine's data exercises and yield none, i.e. NaN. -/
def parseDec (cs : List Char) : Option ℚ :=
  let intPart := cs.takeWhile Char.isDigit
  let rest := cs.dropWhile Char.isDigit
  match rest with
  | [] => if intPart = [] then none else some (digitsVal intPart)
  | '.' :: frac =>
      if frac.all Char.isDigit && !(intPart = [] && frac = []) then
        some ((digitsVal intPart : ℚ) + (digitsVal frac : ℚ) / 10 ^ frac.length)
      else none
  | _ => none

/-- JavaScript ToNumber on a string: trim whitespace, empty means 0,
signed Infinity literals, else a decimal numeral, else NaN. -/
def strToNumber (s : String) : JSNum :=
  let t := ((s.data.dropWhile isJsWs).reverse.dropWhile isJsWs).reverse
  match t with
  | [] => .fin 0
  | '+' :: rest =>
      if rest = "Infinity".data then .posInf
      else match parseDec rest with
        | some q => .fin q
        | none => .nan
  | '-' :: rest =>
      if rest = "Infinity".data then .negInf
      else match parseDec rest with
        | some q => .fin (-q)
        | none => .nan
  | _ =>
      if t = "Infinity".data then .posInf
      else match parseDec t with
        | some q => .fin q
        | none => .nan

/-- Least power of ten the denominator divides (the engine's rationals all
stem from decimal input and decimal rounding, so the bound 40 is ample). -/
def decPow (den : ℕ) : Option ℕ :=
  (List.range 41).find? (fun k => den ∣ 10 ^ k)

/-- JavaScript ToString of a finite number: exact decimal expansion
(shortest form, no trailing zeros); a fraction form as an unreachable
fallback for denominators outside the decimal fragment. -/
def ratToString (q : ℚ) : String :=
  let sign := if q.num < 0 then "-" else ""
  let a := q.num.natAbs
  match decPow q.den with
  | some 0 => sign ++ toString a
  | some k =>
      let scaled := a * 10 ^ k / q.den
      let ip := scaled / 10 ^ k
      let fp := scaled % 10 ^ k
      let fs := toString fp
      sign ++ toString ip ++ "." ++ String.mk (List.replicate (k - fs.length) '0') ++ fs
  | none => sign ++ toString a ++ "/" ++ toString q.den

/-- JavaScript ToString of a number. -/
def numToString (n : JSNum) : String :=
  match n with
  | .nan => "NaN"
  | .posInf => "Infinity"
  | .negInf => "-Infinity"
  | .fin q => ratToString q

/-- JavaScript ToString of an atom used directly (not as an array element). -/
def atomToString (a : JSAtom) : String :=
  match a with
  | .anull => "null"
  | .aundefined => "undefined"
  | .abool b => if b then "true" else "false"
  | .anum n => numToString n
  | .astr s => s

/-- Array.prototype.join maps null and undefined elements to the empty
string, other elements to their string form. -/
def arrElemString (a : JSAtom) : String :=
  match a with
  | .anull => ""
  | .aundefined => ""
  | _ => atomToString a

/-- JavaScript ToString of a field value (arrays stringify by joining their
elements with commas). -/
def fieldToString (f : JSField) : String :=
  match f with
  | .fatom a => atomToString a
  | .farr l => String.intercalate "," (l.map arrElemString)

/-- JavaScript ToNumber of an atom. -/
def atomToNumber (a : JSAtom) : JSNum :=
  match a with
  | .anull => .fin 0
  | .aundefined => .nan
  | .abool b => .fin (if b then 1 else 0)
  | .anum n => n
  | .astr s => strToNumber s

/-- JavaScript ToNumber of a field value (Number(x)); an array converts via
its string form. -/
def toNumber : JSField → JSNum
  | .fatom a => atomToNumber a
  | .farr l => strToNumber (String.intercalate "," (l.map arrElemString))

/-- Math.round: round half toward positive infinity. -/
def mathRound (q : ℚ) : ℤ := ⌊q + 1 / 2⌋

/-- The finite rational carried by an atom, 0 for anything non-finite or
non-numeric (only consulted behind Number.isFinite-style guards). -/
def finOr0 (a : JSAtom) : ℚ :=
  match a with
  | .anum (.fin q) => q
  | _ => 0

/-- Number.isFinite on an atom: true only for a finite number. -/
def isFiniteAtom (a : JSAtom) : Bool :=
  match a with
  | .anum (.fin _) => true
  | _ => false

namespace precisionHelper

/-- precisionHelper.round: 0 unless the argument is a finite number, else
scale by 10^precision, Math.round, scale back. -/
def round (x : JSAtom) (precision : ℕ := 6) : ℚ :=
  match x with
  | .anum (.fin q) => (mathRound (q * 10 ^ precision) : ℚ) / 10 ^ precision
  | _ => 0

/-- precisionHelper.add: coerce non-finite operands to 0, then round the
sum at the default precision. -/
def add (a b : JSAtom) : ℚ :=
  round (.anum (.fin (finOr0 a + finOr0 b)))

/-- precisionHelper.divide: 0 when either operand is non-finite or the
divisor is 0, else the rounded quotient. -/
def divide (a b : JSAtom) : ℚ :=
  if !isFiniteAtom a || !isFiniteAtom b || finOr0 b = 0 then 0
  else round (.anum (.fin (finOr0 a / finOr0 b)))

end precisionHelper

/-- The rationals of the finite entries of a number sequence, in order
(values.filter(Number.isFinite), with each kept entry read as its value). -/
def finiteVals (values : List JSNum) : List ℚ :=
  values.filterMap (fun v => match v with | .fin q => some q | _ => none)

/-- Math.max over a spread argument list of finite numbers:
negative infinity when empty. -/
def mathMax (l : List ℚ) : JSNum :=
  match l with
  | [] => .negInf
  | x :: xs => .fin (xs.foldl max x)

/-- Math.min over a spread argument list of finite numbers:
positive infinity when empty. -/
def mathMin (l : List ℚ) : JSNum :=
  match l with
  | [] => .posInf
  | x :: xs => .fin (xs.foldl min x)

/-- JavaScript indexing sorted[i] on a list of rationals: undefined when out
of range. -/
def atIdx (l : List ℚ) (i : ℤ) : JSAtom :=
  if h : 0 ≤ i ∧ i.toNat < l.length then .anum (.fin (l.get ⟨i.toNat, h.2⟩))
  else .aundefined

namespace statsCalculators

/-- statsCalculators.sum: left fold of precisionHelper.add seeded with 0. -/
def sum (values : List JSNum) : ℚ :=
  values.foldl (fun acc v => precisionHelper.add (.anum (.fin acc)) (.anum v)) 0

/-- statsCalculators.mean: 0 on the empty sequence, else divide(sum, length). -/
def mean (values : List JSNum) : ℚ :=
  if values.length = 0 then 0
  else precisionHelper.divide (.anum (.fin (sum values))) (.anum (.fin (values.length : ℚ)))

/-- statsCalculators.max: 0 only when the original sequence is empty, else
Math.max over the finite entries. -/
def max (values : List JSNum) : JSNum :=
  if values.length = 0 then .fin 0 else mathMax (finiteVals values)

/-- statsCalculators.min: 0 only when the original sequence is empty, else
Math.min over the finite entries. -/
def min (values : List JSNum) : JSNum :=
  if values.length = 0 then .fin 0 else mathMin (finiteVals values)

/-- statsCalculators.median: 0 on the empty sequence; else sort the finite
entries ascending and take the middle element, or for an even count the
rounded half-sum of the two middle elements (out-of-range access on an
all-non-finite sequence yields undefined, which add coerces to 0). -/
def median (values : List JSNum) : ℚ :=
  if values.length = 0 then 0
  else
    let sorted := List.insertionSort (· ≤ ·) (finiteVals values)
    let mid := sorted.length / 2
    if sorted.length % 2 = 0 then
      precisionHelper.divide
        (.anum (.fin (precisionHelper.add (atIdx sorted ((mid : ℤ) - 1)) (atIdx sorted (mid : ℤ)))))
        (.anum (.fin 2))
    else finOr0 (atIdx sorted (mid : ℤ))

end statsCalculators

/-- A per-group summary. -/
structure Summary where
  sum : ℚ
  mean : ℚ
  max : JSNum
  min : JSNum
  median : ℚ
  count : ℕ
deriving DecidableEq

/-- createStatsSummary over a value sequence. -/
def createStatsSummary (values : List JSNum) : Summary :=
  { sum := statsCalculators.sum values
    mean := statsCalculators.mean values
    max := statsCalculators.max values
    min := statsCalculators.min values
    median := statsCalculators.median values
    count := values.length }

/-- An error crossing the engine boundary: the TypeError raised by property
access on null or undefined, or a thrown Error with its message. -/
inductive JsErr where
  | typeErr : JsErr
  | err (msg : String) : JsErr
deriving DecidableEq

/-- Decidable equality of engine outcomes. -/
instance {ε α : Type} [DecidableEq ε] [DecidableEq α] : DecidableEq (Except ε α) := fun a b =>
  match a, b with
  | .error e, .error f =>
      if h : e = f then .isTrue (by rw [h]) else .isFalse (fun hc => by cases hc; exact h rfl)
  | .ok x, .ok y =>
      if h : x = y then .isTrue (by rw [h]) else .isFalse (fun hc => by cases hc; exact h rfl)
  | .error _, .ok _ => .isFalse (fun hc => by cases hc)
  | .ok _, .error _ => .isFalse (fun hc => by cases hc)

/-- The six required record fields. -/
def requiredFields : List String := ["id", "region", "resource", "year", "value", "weight"]

/-- The three numeric record fields. -/
def numericFields : List String := ["year", "value", "weight"]

/-- item.hasOwnProperty(f): field lookup on an object; primitives box to
wrappers owning none of the record field names, and flat arrays own only
indices and a length, so both answer false for the six names. -/
def hasOwn (item : JSItem) (f : String) : Bool :=
  match item with
  | .iobj fields => (fields.lookup f).isSome
  | .ifield _ => false

/-- item[f]: field access, undefined when absent (only consulted on items
that passed the hasOwnProperty guard, hence on objects). -/
def getField (item : JSItem) (f : String) : JSField :=
  match item with
  | .iobj fields => (fields.lookup f).getD (.fatom .aundefined)
  | .ifield _ => .fatom .aundefined

/-- True for the values on which property access throws a TypeError. -/
def isNullish (item : JSItem) : Bool :=
  match item with
  | .ifield (.fatom .anull) => true
  | .ifield (.fatom .aundefined) => true
  | _ => false

/-- The validator's per-record predicate: all six fields present and neither
null nor undefined, and each numeric field coercible to a finite, non-NaN
number. -/
def keepRecord (item : JSItem) : Bool :=
  let hasAllFields := requiredFields.all (fun f =>
    hasOwn item f && !(getField item f == .fatom .anull)
      && !(getField item f == .fatom .aundefined))
  if !hasAllFields then false
  else numericFields.all (fun f =>
    let val := toNumber (getField item f)
    val.isFinite && !(val == .nan))

/-- data.filter(predicate): evaluates the predicate left to right, raising a
TypeError at the first null or undefined element. -/
def filterValid : List JSItem → Except JsErr (List JSItem)
  | [] => .ok []
  | item :: rest =>
      if isNullish item then .error .typeErr
      else
        match filterValid rest with
        | .error e => .error e
        | .ok tail => .ok (if keepRecord item then item :: tail else tail)

/-- validateAndCleanData: throws unless the input is an array, then filters. -/
def validateAndCleanData (data : JSVal) : Except JsErr (List JSItem) :=
  match data with
  | .varr l => filterValid l
  | .vitem _ => .error (.err "数据必须是数组格式")

/-- One step of Map-based grouping: append v to the bucket of key k,
creating the bucket at the end (Map insertion order) when absent. -/
def mapPush {K V : Type} [DecidableEq K] : List (K × List V) → K → V → List (K × List V)
  | [], k, v => [(k, [v])]
  | (k', vs) :: rest, k, v =>
      if k' = k then (k', vs ++ [v]) :: rest else (k', vs) :: mapPush rest k v

/-- performantGroupBy: one pass over the data pushing each item into the
bucket of its derived key; bucket order is first-seen order. -/
def performantGroupBy {K : Type} [DecidableEq K]
    (data : List JSItem) (keyExtractor : JSItem → K) : List (K × List JSItem) :=
  data.foldl (fun groups item => mapPush groups (keyExtractor item) item) []

/-- Property assignment o[k] = v on a plain object: overwrite in place when
the key exists, else append (object key insertion order). -/
def assocSet {α : Type} : List (String × α) → String → α → List (String × α)
  | [], k, v => [(k, v)]
  | (k', v') :: rest, k, v =>
      if k' = k then (k, v) :: rest else (k', v') :: assocSet rest k v

/-- String.prototype.split at a separator character, over the character
list of the string. -/
def splitChar (sep : Char) (cs : List Char) : List (List Char) :=
  cs.foldr
    (fun c acc =>
      if c = sep then [] :: acc
      else
        match acc with
        | [] => [[c]]
        | h :: t => (c :: h) :: t)
    [[]]

/-- key.split with the pipe separator, as strings. -/
def jsSplitPipe (s : String) : List String :=
  (splitChar '|' s.data).map String.mk

/-- The composite region-by-year key of a record: the template literal
joining the string forms of its raw region and year with a pipe. -/
def ryKey (item : JSItem) : String :=
  fieldToString (getField item "region") ++ "|" ++ fieldToString (getField item "year")

/-- The region component the nested output files a record under: the first
split component of its composite key. -/
def bucketRegion (item : JSItem) : String :=
  ((jsSplitPipe (ryKey item)).get? 0).getD "undefined"

/-- The year component the nested output files a record under: the second
split component of its composite key. -/
def bucketYear (item : JSItem) : String :=
  ((jsSplitPipe (ryKey item)).get? 1).getD "undefined"

/-- The global weight summary: only the three order statistics. -/
structure GlobalWeight where
  max : JSNum
  min : JSNum
  median : ℚ
deriving DecidableEq

/-- The batch output. -/
structure BatchResult where
  byRegion : List (String × Summary)
  byRegionAndYear : List (String × List (String × Summary))
  byResource : List (String × Summary)
  globalWeight : GlobalWeight
deriving DecidableEq

/-- The value a record contributes to its groups: Number(item.value). -/
def valOf (item : JSItem) : JSNum := toNumber (getField item "value")

/-- The weight a record contributes: Number(item.weight). -/
def weightOf (item : JSItem) : JSNum := toNumber (getField item "weight")

/-- The batch result built over an already-validated, non-empty record set:
grouping by region, by the composite region-year key (split back apart into
the nested structure), and by resource, plus the ungrouped weight summary.
Result objects are built by sequential property assignment in Map iteration
order, keys passing through their string forms. -/
def buildBatch (cleanData : List JSItem) : BatchResult :=
  let regionGroups := performantGroupBy cleanData (fun item => getField item "region")
  let byRegion := regionGroups.foldl
    (fun o kv => assocSet o (fieldToString kv.1)
      (createStatsSummary (kv.2.map valOf))) []
  let regionYearGroups := performantGroupBy cleanData ryKey
  let byRegionAndYear := regionYearGroups.foldl
    (fun o kv =>
      let parts := jsSplitPipe kv.1
      let region := (parts.get? 0).getD "undefined"
      let year := (parts.get? 1).getD "undefined"
      let cur := (o.lookup region).getD []
      assocSet o region
        (assocSet cur year (createStatsSummary (kv.2.map valOf)))) []
  let resourceGroups := performantGroupBy cleanData (fun item => getField item "resource")
  let byResource := resourceGroups.foldl
    (fun o kv => assocSet o (fieldToString kv.1)
      (createStatsSummary (kv.2.map valOf))) []
  let allWeights := cleanData.map weightOf
  { byRegion := byRegion
    byRegionAndYear := byRegionAndYear
    byResource := byResource
    globalWeight :=
      { max := statsCalculators.max allWeights
        min := statsCalculators.min allWeights
        median := statsCalculators.median allWeights } }

/-- calculateStatistics: validate, fail when no record survives, else build
the aggregate result. -/
def calculateStatistics (rawData : JSVal) : Except JsErr BatchResult :=
  match validateAndCleanData rawData with
  | .error e => .error e
  | .ok cleanData =>
      if cleanData.length = 0 then .error (.err "没有有效的数据记录")
      else .ok (buildBatch cleanData)

/-- The streaming aggregator's running state: per-region and per-resource
value buffers plus the shared weight buffer. -/
structure StreamState where
  byRegion : List (JSField × List JSNum)
  byResource : List (JSField × List JSNum)
  weights : List JSNum
deriving DecidableEq

/-- The fresh state of a streaming run. -/
def initState : StreamState := { byRegion := [], byResource := [], weights := [] }

/-- Per-record streaming update: push Number(item.value) into the region and
resource buckets of the item's raw labels, and Number(item.weight) onto the
shared weight buffer. -/
def processItem (s : StreamState) (item : JSItem) : StreamState :=
  { byRegion := mapPush s.byRegion (getField item "region") (valOf item)
    byResource := mapPush s.byResource (getField item "resource") (valOf item)
    weights := s.weights ++ [weightOf item] }

/-- Ascending sort of the weight buffer with the comparator
(a, b) => a - b; validated weights are all finite, on which sorting by the
carried value is exact (non-finite values are ranked as 0 merely to keep the
order total). -/
def sortWeights (l : List JSNum) : List JSNum :=
  List.insertionSort (fun a b => finOr0 (.anum a) ≤ finOr0 (.anum b)) l

/-- One chunk of the streaming loop: validate the chunk, push every cleaned
record, then compact the shared weight buffer to the singleton of its median
when it has grown past 100,000 entries (the buffer is sorted in place first;
the median is then taken of the sorted buffer). -/
def processChunk (s : StreamState) (chunk : JSVal) : Except JsErr StreamState :=
  match validateAndCleanData chunk with
  | .error e => .error e
  | .ok cleanChunk =>
      let s1 := cleanChunk.foldl processItem s
      if 100000 < s1.weights.length then
        let sortedW := sortWeights s1.weights
        let m := statsCalculators.median sortedW
        .ok { s1 with weights := [.fin m] }
      else .ok s1

/-- The streaming output (no region-by-year breakdown in streaming mode). -/
structure StreamResult where
  byRegion : List (String × Summary)
  byResource : List (String × Summary)
  globalWeight : GlobalWeight
deriving DecidableEq

/-- Stream finalization: summarize every region and resource buffer, and
take the three order statistics of whatever remains in the weight buffer. -/
def finalizeStream (st : StreamState) : StreamResult :=
  { byRegion := st.byRegion.foldl
      (fun o kv => assocSet o (fieldToString kv.1) (createStatsSummary kv.2)) []
    byResource := st.byResource.foldl
      (fun o kv => assocSet o (fieldToString kv.1) (createStatsSummary kv.2)) []
    globalWeight :=
      { max := statsCalculators.max st.weights
        min := statsCalculators.min st.weights
        median := statsCalculators.median st.weights } }

/-- calculateStatisticsStream: fold the chunk step over the chunk sequence
from the fresh state, then finalize (the chunkSize parameter is declared but
unused, as in the source). -/
def calculateStatisticsStream (dataStream : List JSVal) (chunkSize : ℕ := 10000) :
    Except JsErr StreamResult :=
  match dataStream.foldlM processChunk initState with
  | .error e => .error e
  | .ok st => .ok (finalizeStream st)

/-- A numeric field value. -/
def numF (q : ℚ) : JSField := .fatom (.anum (.fin q))

/-- A record literal with the six required fields. -/
def mkRecord (id : ℚ) (region resource : String) (year value weight : JSField) : JSItem :=
  .iobj [("id", .fatom (.anum (.fin id))), ("region", .fatom (.astr region)),
         ("resource", .fatom (.astr resource)), ("year", year),
         ("value", value), ("weight", weight)]

/-- A record whose numeric fields are non-number values that coerce to
finite numbers: year true, value the empty string, weight an empty array. -/
def recCoerced : JSItem :=
  mkRecord 1 "Asia" "Cereals" (.fatom (.abool true)) (.fatom (.astr "")) (.farr [])

/-- Sample conforming records. -/
def recA : JSItem := mkRecord 1 "Asia" "Cereals" (numF 2020) (numF 100) (numF 50)

def recB : JSItem := mkRecord 2 "Asia" "Cereals" (numF 2020) (numF 200) (numF 100)

def recC : JSItem := mkRecord 3 "Europe" "Fruits" (numF 2021) (numF 150) (numF 75)

/-- A record whose region label contains the composite-key separator. -/
def recP1 : JSItem := mkRecord 1 "A|1" "R" (numF 2) (numF 100) (numF 1)

/-- A record with region A and year 1, semantically distinct from recP1. -/
def recP2 : JSItem := mkRecord 2 "A" "R" (numF 1) (numF 200) (numF 2)

/-! ## Helper lemmas -/

theorem filterValid_eq_filter (l : List JSItem) (h : ∀ i ∈ l, isNullish i = false) :
    filterValid l = .ok (l.filter keepRecord) := by
  induction l with
  | nil => rfl
  | cons a rest ih =>
      have ha : isNullish a = false := h a (List.mem_cons_self a rest)
      have hr := ih (fun i hi => h i (List.mem_cons_of_mem a hi))
      simp [filterValid, ha, hr, List.filter_cons]

theorem filterValid_ok_no_nullish (l : List JSItem) (r : List JSItem)
    (h : filterValid l = .ok r) : ∀ i ∈ l, isNullish i = false := by
  induction l generalizing r with
  | nil => intro i hi; exact absurd hi (List.not_mem_nil i)
  | cons a rest ih =>
      intro i hi
      by_cases ha : isNullish a = true
      · simp [filterValid, ha] at h
      · rcases List.mem_cons.mp hi with rfl | hmem
        · exact Bool.not_eq_true _ ▸ ha
        · simp only [filterValid, ha, Bool.false_eq_true, if_false] at h
          rcases hr : filterValid rest with e | tail
          · rw [hr] at h; exact absurd h (by simp)
          · exact ih tail hr i hmem

theorem left_le_foldl_max : ∀ (xs : List ℚ) (x : ℚ), x ≤ xs.foldl max x
  | [], _ => le_refl _
  | y :: ys, x => le_trans (le_max_left x y) (left_le_foldl_max ys (max x y))

theorem mem_le_foldl_max : ∀ (xs : List ℚ) (x y : ℚ), y ∈ xs → y ≤ xs.foldl max x
  | [], _, _, h => absurd h (List.not_mem_nil _)
  | z :: zs, x, y, h => by
      rcases List.mem_cons.mp h with rfl | h2
      · exact le_trans (le_max_right x y) (left_le_foldl_max zs (max x y))
      · exact mem_le_foldl_max zs (max x z) y h2

theorem foldl_max_mem : ∀ (xs : List ℚ) (x : ℚ), xs.foldl max x ∈ x :: xs
  | [], x => List.mem_singleton.mpr rfl
  | y :: ys, x => by
      have h := foldl_max_mem ys (max x y)
      simp only [List.foldl_cons]
      rcases List.mem_cons.mp h with h1 | h1
      · rcases max_choice x y with hc | hc
        · rw [h1.trans hc]; exact List.mem_cons_self x (y :: ys)
        · rw [h1.trans hc]; exact List.mem_cons_of_mem x (List.mem_cons_self y ys)
      · exact List.mem_cons_of_mem x (List.mem_cons_of_mem y h1)

theorem foldl_min_le_left : ∀ (xs : List ℚ) (x : ℚ), xs.foldl min x ≤ x
  | [], _ => le_refl _
  | y :: ys, x => le_trans (foldl_min_le_left ys (min x y)) (min_le_left x y)

theorem foldl_min_le_mem : ∀ (xs : List ℚ) (x y : ℚ), y ∈ xs → xs.foldl min x ≤ y
  | [], _, _, h => absurd h (List.not_mem_nil _)
  | z :: zs, x, y, h => by
      rcases List.mem_cons.mp h with rfl | h2
      · exact le_trans (foldl_min_le_left zs (min x y)) (min_le_right x y)
      · exact foldl_min_le_mem zs (min x z) y h2

theorem foldl_min_mem : ∀ (xs : List ℚ) (x : ℚ), xs.foldl min x ∈ x :: xs
  | [], x => List.mem_singleton.mpr rfl
  | y :: ys, x => by
      have h := foldl_min_mem ys (min x y)
      simp only [List.foldl_cons]
      rcases List.mem_cons.mp h with h1 | h1
      · rcases min_choice x y with hc | hc
        · rw [h1.trans hc]; exact List.mem_cons_self x (y :: ys)
        · rw [h1.trans hc]; exact List.mem_cons_of_mem x (List.mem_cons_self y ys)
      · exact List.mem_cons_of_mem x (List.mem_cons_of_mem y h1)

theorem finiteVals_nil_of_nil : finiteVals [] = [] := rfl

theorem round_fin_zero (p : ℕ) : precisionHelper.round (.anum (.fin 0)) p = 0 := by
  have h : mathRound ((0 : ℚ) * 10 ^ p) = 0 := by
    rw [mathRound, zero_mul, zero_add, Int.floor_eq_zero_iff]
    exact Set.mem_Ico.mpr ⟨by norm_num, by norm_num⟩
  show (mathRound ((0 : ℚ) * 10 ^ p) : ℚ) / 10 ^ p = 0
  rw [h]
  simp

/-! ## Claim C1: max and min on sequences with non-finite entries -/

/-- C1 as stated is false: max of the non-empty all-non-finite sequence
consisting of one NaN is negative infinity, and min of it is positive
infinity, neither of which is 0. -/
theorem claim_C1_counterexample :
    statsCalculators.max [JSNum.nan] = JSNum.negInf ∧
    statsCalculators.min [JSNum.nan] = JSNum.posInf ∧
    JSNum.negInf ≠ JSNum.fin 0 ∧ JSNum.posInf ≠ JSNum.fin 0 := by
  refine ⟨rfl, rfl, ?_, ?_⟩ <;> intro h <;> cases h

/-- C1 amended: max and min return 0 only when the original sequence is
empty; on a non-empty sequence with no finite entry they return negative
and positive infinity respectively (Math.max and Math.min of an empty
argument list); otherwise they return the greatest and least finite entry. -/
theorem claim_C1_amended (values : List JSNum) :
    (values = [] →
        statsCalculators.max values = .fin 0 ∧ statsCalculators.min values = .fin 0)
  ∧ (values ≠ [] → finiteVals values = [] →
        statsCalculators.max values = .negInf ∧ statsCalculators.min values = .posInf)
  ∧ (finiteVals values ≠ [] →
        ∃ qmax qmin,
          statsCalculators.max values = .fin qmax ∧
          statsCalculators.min values = .fin qmin ∧
          qmax ∈ finiteVals values ∧ qmin ∈ finiteVals values ∧
          ∀ x ∈ finiteVals values, x ≤ qmax ∧ qmin ≤ x) := by
  refine ⟨?_, ?_, ?_⟩
  · rintro rfl; exact ⟨rfl, rfl⟩
  · intro hne hfv
    have hlen : values.length ≠ 0 := fun h => hne (List.length_eq_zero.mp h)
    constructor
    · simp [statsCalculators.max, hlen, hfv, mathMax]
    · simp [statsCalculators.min, hlen, hfv, mathMin]
  · intro hfv
    have hne : values ≠ [] := by
      rintro rfl; exact hfv rfl
    have hlen : values.length ≠ 0 := fun h => hne (List.length_eq_zero.mp h)
    rcases hv : finiteVals values with _ | ⟨x, xs⟩
    · exact absurd hv hfv
    · refine ⟨xs.foldl max x, xs.foldl min x, ?_, ?_, ?_, ?_, ?_⟩
      · simp [statsCalculators.max, hlen, hv, mathMax]
      · simp [statsCalculators.min, hlen, hv, mathMin]
      · exact foldl_max_mem xs x
      · exact foldl_min_mem xs x
      · intro y hy
        rcases List.mem_cons.mp hy with rfl | h2
        · exact ⟨left_le_foldl_max xs y, foldl_min_le_left xs y⟩
        · exact ⟨mem_le_foldl_max xs x y h2, foldl_min_le_mem xs x y h2⟩

/-- Witness for C1 on a concrete mixed sequence. -/
theorem claim_C1_witness :
    finiteVals [JSNum.fin 3, JSNum.nan, JSNum.fin 5] ≠ [] ∧
    (∃ qmax qmin,
        statsCalculators.max [JSNum.fin 3, JSNum.nan, JSNum.fin 5] = .fin qmax ∧
        statsCalculators.min [JSNum.fin 3, JSNum.nan, JSNum.fin 5] = .fin qmin ∧
        qmax ∈ finiteVals [JSNum.fin 3, JSNum.nan, JSNum.fin 5] ∧
        qmin ∈ finiteVals [JSNum.fin 3, JSNum.nan, JSNum.fin 5] ∧
        ∀ x ∈ finiteVals [JSNum.fin 3, JSNum.nan, JSNum.fin 5], x ≤ qmax ∧ qmin ≤ x) :=
  ⟨by with_unfolding_all decide,
   (claim_C1_amended [JSNum.fin 3, JSNum.nan, JSNum.fin 5]).2.2
     (by with_unfolding_all decide)⟩

/-! ## Claim C2: the validator on arrays with bad elements -/

/-- C2 as stated is false: the array containing one null element makes the
validator raise a TypeError (property access on null), instead of silently
dropping the element. -/
theorem claim_C2_counterexample :
    validateAndCleanData (.varr [.ifield (.fatom .anull)]) = .error .typeErr := rfl

/-- C2 amended: on arrays none of whose elements are null or undefined,
every non-retained element is silently dropped, the call never raises, and
the retained records come back in their original order; the format error is
raised exactly on non-array input. -/
theorem claim_C2_amended (l : List JSItem) (h : ∀ i ∈ l, isNullish i = false) :
    validateAndCleanData (.varr l) = .ok (l.filter keepRecord)
  ∧ ∀ i : JSItem, validateAndCleanData (.vitem i) = .error (.err "数据必须是数组格式") :=
  ⟨filterValid_eq_filter l h, fun _ => rfl⟩

/-- Witness for C2: a conforming record next to a numeric element; the
number is dropped without an error. -/
theorem claim_C2_witness :
    validateAndCleanData (.varr [.ifield (.fatom (.anum (.fin 7)))]) =
      .ok ([.ifield (.fatom (.anum (.fin 7)))].filter keepRecord) ∧
    ([JSItem.ifield (.fatom (.anum (.fin 7)))].filter keepRecord) = [] :=
  ⟨(claim_C2_amended [.ifield (.fatom (.anum (.fin 7)))] (by decide)).1,
   by decide⟩

/-! ## Claim C3: rounding mode of precisionHelper.round -/

/-- C3 as stated is false at x = -0.0000005, precision 6: the result is 0
(Math.round rounds halves toward positive infinity), not -0.000001. -/
theorem claim_C3_counterexample :
    precisionHelper.round (.anum (.fin (-5 / 10000000))) 6 = 0 ∧
    ¬ precisionHelper.round (.anum (.fin (-5 / 10000000))) 6 = -1 / 1000000 := by
  with_unfolding_all decide

/-- C3 amended: round returns 0 for every argument that is not a finite
number; for a finite x it returns the multiple of 10^(-precision) obtained
by rounding x half toward positive infinity (the scaled value lands in the
half-open interval (x·10^p - 1/2, x·10^p + 1/2], so exact halves round up,
not away from zero); the default precision is 6. -/
theorem claim_C3_amended :
    (∀ (x : JSAtom) (p : ℕ), (∀ q : ℚ, x ≠ .anum (.fin q)) →
        precisionHelper.round x p = 0)
  ∧ (∀ (q : ℚ) (p : ℕ), ∃ m : ℤ,
        precisionHelper.round (.anum (.fin q)) p = (m : ℚ) / 10 ^ p ∧
        q * 10 ^ p - 1 / 2 < (m : ℚ) ∧ (m : ℚ) ≤ q * 10 ^ p + 1 / 2)
  ∧ (∀ x : JSAtom, precisionHelper.round x = precisionHelper.round x 6) := by
  refine ⟨?_, ?_, fun _ => rfl⟩
  · intro x p hx
    match x with
    | .anull => rfl
    | .aundefined => rfl
    | .abool _ => rfl
    | .astr _ => rfl
    | .anum .nan => rfl
    | .anum .posInf => rfl
    | .anum .negInf => rfl
    | .anum (.fin q) => exact absurd rfl (hx q)
  · intro q p
    refine ⟨mathRound (q * 10 ^ p), rfl, ?_, ?_⟩
    · have h := Int.lt_floor_add_one (q * 10 ^ p + 1 / 2)
      rw [mathRound]
      push_cast at h ⊢
      linarith
    · have h := Int.floor_le (q * 10 ^ p + 1 / 2)
      rw [mathRound]
      linarith

/-- Witness for C3: the non-number branch at a string argument and the
characterization at x = 1/2, precision 0 (Math.round(0.5) = 1). -/
theorem claim_C3_witness :
    precisionHelper.round (.astr "abc") 6 = 0 ∧
    (∃ m : ℤ,
        precisionHelper.round (.anum (.fin (1 / 2))) 0 = (m : ℚ) / 10 ^ (0 : ℕ) ∧
        (1 / 2 : ℚ) * 10 ^ (0 : ℕ) - 1 / 2 < (m : ℚ) ∧
        (m : ℚ) ≤ (1 / 2 : ℚ) * 10 ^ (0 : ℕ) + 1 / 2) :=
  ⟨claim_C3_amended.1 (.astr "abc") 6 (fun q h => by cases h),
   claim_C3_amended.2.1 (1 / 2) 0⟩

/-! ## Claim C6: the failure conditions of calculateStatistics -/

/-- C6 as stated is false: on the array containing one null element no
record survives validation, yet the raised condition is the TypeError from
property access, not the no-valid-records failure. -/
theorem claim_C6_counterexample :
    calculateStatistics (.varr [.ifield (.fatom .anull)]) = .error .typeErr ∧
    JsErr.typeErr ≠ .err "没有有效的数据记录" := by
  exact ⟨rfl, fun h => by cases h⟩

/-- C6 amended: on arrays none of whose elements are null or undefined,
calculateStatistics raises the no-valid-records condition exactly when no
record survives validation (in particular on the empty array), returns an
aggregate result when at least one survives, and the no-valid-records
failure is distinct from the input-shape failure raised on non-array
input. -/
theorem claim_C6_amended (l : List JSItem) (h : ∀ i ∈ l, isNullish i = false) :
    (calculateStatistics (.varr l) = .error (.err "没有有效的数据记录") ↔
        l.filter keepRecord = [])
  ∧ (l.filter keepRecord ≠ [] →
        calculateStatistics (.varr l) = .ok (buildBatch (l.filter keepRecord)))
  ∧ (∀ i : JSItem, calculateStatistics (.vitem i) = .error (.err "数据必须是数组格式"))
  ∧ JsErr.err "没有有效的数据记录" ≠ .err "数据必须是数组格式" := by
  have hclean := filterValid_eq_filter l h
  have hcalc : calculateStatistics (.varr l) =
      if (l.filter keepRecord).length = 0 then .error (.err "没有有效的数据记录")
      else .ok (buildBatch (l.filter keepRecord)) := by
    simp [calculateStatistics, validateAndCleanData, hclean]
  refine ⟨?_, ?_, fun _ => rfl, by decide⟩
  · rw [hcalc]
    by_cases hz : (l.filter keepRecord).length = 0
    · simp [hz, List.length_eq_zero.mp hz]
    · have : l.filter keepRecord ≠ [] := fun he => hz (by rw [he]; rfl)
      simp [hz, this]
  · intro hne
    have hz : (l.filter keepRecord).length ≠ 0 :=
      fun he => hne (List.length_eq_zero.mp he)
    rw [hcalc]; simp [hz]

/-- Witness for C6: the empty array triggers exactly the no-valid-records
condition. -/
theorem claim_C6_witness :
    calculateStatistics (.varr []) = .error (.err "没有有效的数据记录") :=
  (claim_C6_amended [] (by intro i hi; exact absurd hi (List.not_mem_nil i))).1.mpr rfl

/-! ## Claim C8: the median calculator -/

theorem finiteVals_perm {l₁ l₂ : List JSNum} (h : l₁.Perm l₂) :
    (finiteVals l₁).Perm (finiteVals l₂) :=
  h.filterMap _

theorem insertionSort_eq_of_perm {l₁ l₂ : List ℚ} (h : l₁.Perm l₂) :
    List.insertionSort (· ≤ ·) l₁ = List.insertionSort (· ≤ ·) l₂ :=
  List.eq_of_perm_of_sorted
    (((List.perm_insertionSort _ l₁).trans h).trans (List.perm_insertionSort _ l₂).symm)
    (List.sorted_insertionSort _ l₁) (List.sorted_insertionSort _ l₂)

theorem median_perm {l₁ l₂ : List JSNum} (h : l₁.Perm l₂) :
    statsCalculators.median l₁ = statsCalculators.median l₂ := by
  unfold statsCalculators.median
  rw [h.length_eq, insertionSort_eq_of_perm (finiteVals_perm h)]

theorem atIdx_nonneg (l : List ℚ) (n : ℕ) (h : n < l.length) :
    atIdx l (n : ℤ) = .anum (.fin (l.getD n 0)) := by
  have ht : ((n : ℤ)).toNat = n := Int.toNat_natCast n
  have h2 : ((n : ℤ)).toNat < l.length := by omega
  rw [atIdx, dif_pos ⟨by omega, h2⟩]
  have e1 : l.get? (((n : ℤ)).toNat) = some (l.get ⟨((n : ℤ)).toNat, h2⟩) :=
    List.get?_eq_get h2
  have e0 : l.get? n = l.get? (((n : ℤ)).toNat) := by rw [ht]
  have e2 : l.getD n 0 = (l.get? n).getD 0 := rfl
  rw [e2, e0, e1]
  rfl

theorem atIdx_out_of_range (l : List ℚ) (i : ℤ) (h : ¬(0 ≤ i ∧ i.toNat < l.length)) :
    atIdx l i = .aundefined := by
  rw [atIdx, dif_neg h]

theorem add_undef_undef : precisionHelper.add .aundefined .aundefined = 0 := by
  show precisionHelper.round (.anum (.fin (0 + 0))) = 0
  rw [add_zero]
  exact round_fin_zero 6

theorem divide_fin (a b : ℚ) (hb : b ≠ 0) :
    precisionHelper.divide (.anum (.fin a)) (.anum (.fin b)) =
      precisionHelper.round (.anum (.fin (a / b))) := by
  simp [precisionHelper.divide, isFiniteAtom, finOr0, hb]

theorem values_ne_nil_of_finiteVals {values : List JSNum} {x : ℚ} {xs : List ℚ}
    (h : finiteVals values = x :: xs) : values.length ≠ 0 := by
  intro hlen
  rw [List.length_eq_zero.mp hlen] at h
  exact absurd h (by simp [finiteVals])

/-- C8: median returns 0 whenever no finite entry remains (also on a
non-empty all-non-finite sequence, where the out-of-range middle accesses
yield undefined, which add coerces to 0); otherwise, taking the ascending
sorted arrangement of the finite entries, it returns the middle element
verbatim for an odd count and divide(add(lower middle, upper middle), 2)
for an even count; median of 1,2,3,4 is 2.5 and of 1,3,5,7,9 is 5; and the
result is invariant under permutation of the input. -/
theorem claim_C8 (values : List JSNum) :
    (finiteVals values = [] → statsCalculators.median values = 0)
  ∧ (∀ sorted : List ℚ, sorted.Perm (finiteVals values) → sorted.Sorted (· ≤ ·) →
      (sorted.length % 2 = 1 →
          statsCalculators.median values = sorted.getD (sorted.length / 2) 0)
    ∧ (sorted.length % 2 = 0 → sorted ≠ [] →
          statsCalculators.median values =
            precisionHelper.divide
              (.anum (.fin (precisionHelper.add
                (.anum (.fin (sorted.getD (sorted.length / 2 - 1) 0)))
                (.anum (.fin (sorted.getD (sorted.length / 2) 0))))))
              (.anum (.fin 2))))
  ∧ statsCalculators.median [JSNum.fin 1, .fin 2, .fin 3, .fin 4] = 5 / 2
  ∧ statsCalculators.median [JSNum.fin 1, .fin 3, .fin 5, .fin 7, .fin 9] = 5
  ∧ (∀ values2, values.Perm values2 →
        statsCalculators.median values = statsCalculators.median values2) := by
  refine ⟨?_, ?_, by with_unfolding_all decide, by with_unfolding_all decide,
    fun _ h => median_perm h⟩
  · intro hfv
    by_cases hlen : values.length = 0
    · simp [statsCalculators.median, hlen]
    · rw [statsCalculators.median, if_neg hlen, hfv]
      have hidx0 : atIdx ([] : List ℚ) ((((0:ℕ) : ℤ)) - 1) = .aundefined :=
        atIdx_out_of_range _ _ (by intro hc; omega)
      have hidx1 : atIdx ([] : List ℚ) ((0:ℕ) : ℤ) = .aundefined :=
        atIdx_out_of_range _ _ (by intro hc; simp at hc)
      simp only [List.insertionSort, List.length_nil, Nat.zero_div, Nat.zero_mod,
        if_pos rfl, hidx0, hidx1, add_undef_undef]
      rw [divide_fin 0 2 (by norm_num), zero_div]
      exact round_fin_zero 6
  · intro sorted hperm hsorted
    have hsort_eq : List.insertionSort (· ≤ ·) (finiteVals values) = sorted :=
      List.eq_of_perm_of_sorted
        ((List.perm_insertionSort _ _).trans hperm.symm)
        (List.sorted_insertionSort _ _) hsorted
    constructor
    · intro hodd
      have hsne : sorted ≠ [] := by
        intro he; rw [he] at hodd; simp at hodd
      rcases hfvc : finiteVals values with _ | ⟨x, xs⟩
      · rw [hfvc] at hsort_eq
        exact absurd hsort_eq.symm hsne
      · have hlen : values.length ≠ 0 := values_ne_nil_of_finiteVals hfvc
        rw [statsCalculators.median, if_neg hlen, hsort_eq]
        have hmid : sorted.length / 2 < sorted.length :=
          Nat.div_lt_self (List.length_pos.mpr hsne) (by norm_num)
        rw [if_neg (by omega), atIdx_nonneg sorted _ hmid]
        rfl
    · intro heven hsne
      rcases hfvc : finiteVals values with _ | ⟨x, xs⟩
      · rw [hfvc] at hsort_eq
        exact absurd hsort_eq.symm hsne
      · have hlen : values.length ≠ 0 := values_ne_nil_of_finiteVals hfvc
        rw [statsCalculators.median, if_neg hlen, hsort_eq]
        have hpos : 0 < sorted.length := List.length_pos.mpr hsne
        have hlen2 : 2 ≤ sorted.length := by omega
        have hmid : sorted.length / 2 < sorted.length :=
          Nat.div_lt_self hpos (by norm_num)
        have hmid1 : 1 ≤ sorted.length / 2 := by
          have := Nat.div_le_div_right (c := 2) hlen2
          simpa using this
        have hcast : ((sorted.length / 2 : ℕ) : ℤ) - 1 =
            (((sorted.length / 2 - 1 : ℕ)) : ℤ) := by omega
        rw [if_pos heven, hcast, atIdx_nonneg sorted _ (by omega),
          atIdx_nonneg sorted _ hmid]

/-- Witness for C8 on a concrete sequence with a NaN entry: the sorted
finite entries are 1,2,3,4, the middle pair averages to 2.5, and a
permutation leaves the median unchanged. -/
theorem claim_C8_witness :
    (statsCalculators.median [JSNum.fin 3, .nan, .fin 1, .fin 2, .fin 4] =
      precisionHelper.divide
        (.anum (.fin (precisionHelper.add
          (.anum (.fin (([1, 2, 3, 4] : List ℚ).getD (([1, 2, 3, 4] : List ℚ).length / 2 - 1) 0)))
          (.anum (.fin (([1, 2, 3, 4] : List ℚ).getD (([1, 2, 3, 4] : List ℚ).length / 2) 0))))))
        (.anum (.fin 2)))
  ∧ statsCalculators.median [JSNum.fin 3, .nan, .fin 1, .fin 2, .fin 4] =
      statsCalculators.median [JSNum.fin 4, .fin 2, .fin 1, .nan, .fin 3] :=
  ⟨((claim_C8 [JSNum.fin 3, .nan, .fin 1, .fin 2, .fin 4]).2.1 [1, 2, 3, 4]
      (by with_unfolding_all decide) (by with_unfolding_all decide)).2
      (by with_unfolding_all decide) (by with_unfolding_all decide),
   (claim_C8 [JSNum.fin 3, .nan, .fin 1, .fin 2, .fin 4]).2.2.2.2
      [JSNum.fin 4, .fin 2, .fin 1, .nan, .fin 3] (by with_unfolding_all decide)⟩

/-! ## Claim C10: coercible non-number fields are retained and aggregated -/

theorem isFinite_not_nan {n : JSNum} (h : n.isFinite = true) : (n == JSNum.nan) = false := by
  cases n <;> first | rfl | simp [JSNum.isFinite] at h

/-- C10: a record all of whose six fields are present and non-null, and
whose year, value and weight coerce to finite numbers under ToNumber —
whether or not they are numbers — is retained by the validator, and the
aggregators consume the coerced values: the single-record batch result
summarizes exactly the coerced value under the record's region label, and
its global weight statistics are those of the coerced weight. -/
theorem claim_C10 (item : JSItem)
    (hfields : ∀ f ∈ requiredFields, hasOwn item f = true ∧
        getField item f ≠ .fatom .anull ∧ getField item f ≠ .fatom .aundefined)
    (hnum : ∀ f ∈ numericFields, (toNumber (getField item f)).isFinite = true) :
    keepRecord item = true
  ∧ validateAndCleanData (.varr [item]) = .ok [item]
  ∧ calculateStatistics (.varr [item]) = .ok (buildBatch [item])
  ∧ (buildBatch [item]).byRegion =
      [(fieldToString (getField item "region"), createStatsSummary [valOf item])]
  ∧ (buildBatch [item]).globalWeight =
      { max := statsCalculators.max [weightOf item]
        min := statsCalculators.min [weightOf item]
        median := statsCalculators.median [weightOf item] } := by
  have hkeep : keepRecord item = true := by
    unfold keepRecord
    have h1 : requiredFields.all (fun f =>
        hasOwn item f && !(getField item f == .fatom .anull)
          && !(getField item f == .fatom .aundefined)) = true := by
      rw [List.all_eq_true]
      intro f hf
      obtain ⟨hown, hnn, hnu⟩ := hfields f hf
      simp [hown, hnn, hnu]
    have h2 : numericFields.all (fun f =>
        let val := toNumber (getField item f)
        val.isFinite && !(val == .nan)) = true := by
      rw [List.all_eq_true]
      intro f hf
      have hfin := hnum f hf
      simp [hfin, isFinite_not_nan hfin]
    simp [h1, h2]
  have hnn : isNullish item = false := by
    cases item with
    | ifield f =>
        have := (hfields "id" (by decide)).1
        simp [hasOwn] at this
    | iobj fields => rfl
  refine ⟨hkeep, ?_, ?_, ?_, ?_⟩
  · simp [validateAndCleanData, filterValid, hnn, hkeep]
  · simp [calculateStatistics, validateAndCleanData, filterValid, hnn, hkeep]
  · simp [buildBatch, performantGroupBy, mapPush, assocSet]
  · simp [buildBatch]

/-- Witness for C10: the record with year true, value the empty string and
weight an empty array is retained; the empty string contributes the value
0 to its group. -/
theorem claim_C10_witness :
    validateAndCleanData (.varr [recCoerced]) = .ok [recCoerced] ∧
    valOf recCoerced = .fin 0 ∧ weightOf recCoerced = .fin 0 ∧
    toNumber (getField recCoerced "year") = .fin 1 :=
  ⟨(claim_C10 recCoerced (by with_unfolding_all decide)
      (by with_unfolding_all decide)).2.1,
   by with_unfolding_all decide, by with_unfolding_all decide,
   by with_unfolding_all decide⟩

/-! ## Claim C5: composite region-year keys and their splitting -/

theorem splitChar_cons (sep c : Char) (cs : List Char) :
    splitChar sep (c :: cs) =
      (if c = sep then [] :: splitChar sep cs
       else
         match splitChar sep cs with
         | [] => [[c]]
         | h :: t => (c :: h) :: t) := rfl

theorem splitChar_no_sep (sep : Char) :
    ∀ cs : List Char, sep ∉ cs → splitChar sep cs = [cs]
  | [], _ => rfl
  | c :: cs, h => by
      have hc : ¬ c = sep := fun he => h (he ▸ List.mem_cons_self c cs)
      have hr := splitChar_no_sep sep cs (fun hm => h (List.mem_cons_of_mem c hm))
      rw [splitChar_cons, if_neg hc, hr]

theorem splitChar_append (sep : Char) (b : List Char) :
    ∀ a : List Char, sep ∉ a → splitChar sep (a ++ sep :: b) = a :: splitChar sep b
  | [], _ => by rw [List.nil_append, splitChar_cons, if_pos rfl]
  | c :: cs, h => by
      have hc : ¬ c = sep := fun he => h (he ▸ List.mem_cons_self c cs)
      have hr := splitChar_append sep b cs (fun hm => h (List.mem_cons_of_mem c hm))
      rw [List.cons_append, splitChar_cons, if_neg hc, hr]

theorem jsSplitPipe_append (x y : String) (hx : '|' ∉ x.data) (hy : '|' ∉ y.data) :
    jsSplitPipe (x ++ "|" ++ y) = [x, y] := by
  unfold jsSplitPipe
  have hdata : (x ++ "|" ++ y).data = x.data ++ '|' :: y.data := by
    have hpipe : ("|" : String).data = ['|'] := rfl
    rw [String.data_append, String.data_append, hpipe, List.append_assoc]
    rfl
  rw [hdata, splitChar_append _ _ _ hx, splitChar_no_sep _ _ hy]
  rfl

theorem bucket_of_pipe_free (item : JSItem)
    (hr : '|' ∉ (fieldToString (getField item "region")).data)
    (hy : '|' ∉ (fieldToString (getField item "year")).data) :
    bucketRegion item = fieldToString (getField item "region") ∧
    bucketYear item = fieldToString (getField item "year") := by
  unfold bucketRegion bucketYear ryKey
  rw [jsSplitPipe_append _ _ hr hy]
  exact ⟨rfl, rfl⟩

/-- C5 as stated is false: the two valid records with region A|1, year 2
and with region A, year 1 land in the same region-A, year-1 bucket of the
nested output although their region labels differ; in the full batch result
the second record's summary is all that remains under that bucket (the
first record's group overwrote it and was then overwritten). -/
theorem claim_C5_counterexample :
    keepRecord recP1 = true ∧ keepRecord recP2 = true
  ∧ bucketRegion recP1 = bucketRegion recP2
  ∧ bucketYear recP1 = bucketYear recP2
  ∧ fieldToString (getField recP1 "region") ≠ fieldToString (getField recP2 "region")
  ∧ calculateStatistics (.varr [recP1, recP2]) = .ok (buildBatch [recP1, recP2])
  ∧ (buildBatch [recP1, recP2]).byRegionAndYear =
      [("A", [("1", createStatsSummary [.fin 200])])] := by
  with_unfolding_all decide

/-- C5 amended: bucket placement in the nested output is determined by the
first two pipe-separated components of the composite key, so whenever the
string forms of the region and year are free of the separator, two valid
records land in the same bucket exactly when those string forms agree; a
region label containing the separator (or two year values with different
string forms) breaks the claimed correspondence with the raw attribute
values, as the counterexample shows. -/
theorem claim_C5_amended (i1 i2 : JSItem)
    (h1r : '|' ∉ (fieldToString (getField i1 "region")).data)
    (h1y : '|' ∉ (fieldToString (getField i1 "year")).data)
    (h2r : '|' ∉ (fieldToString (getField i2 "region")).data)
    (h2y : '|' ∉ (fieldToString (getField i2 "year")).data) :
    (bucketRegion i1 = bucketRegion i2 ∧ bucketYear i1 = bucketYear i2) ↔
      (fieldToString (getField i1 "region") = fieldToString (getField i2 "region") ∧
       fieldToString (getField i1 "year") = fieldToString (getField i2 "year")) := by
  rw [(bucket_of_pipe_free i1 h1r h1y).1, (bucket_of_pipe_free i1 h1r h1y).2,
    (bucket_of_pipe_free i2 h2r h2y).1, (bucket_of_pipe_free i2 h2r h2y).2]

/-- Witness for C5: two records with separator-free labels share a bucket
exactly because their region and year strings agree. -/
theorem claim_C5_witness :
    bucketRegion recA = bucketRegion recB ∧ bucketYear recA = bucketYear recB :=
  (claim_C5_amended recA recB (by with_unfolding_all decide)
      (by with_unfolding_all decide) (by with_unfolding_all decide)
      (by with_unfolding_all decide)).mpr
    ⟨by with_unfolding_all decide, by with_unfolding_all decide⟩

/-! ## Claim C7: weight-buffer compaction and final global weight -/

theorem sortWeights_perm (l : List JSNum) : (sortWeights l).Perm l :=
  List.perm_insertionSort _ l

theorem median_sortWeights (l : List JSNum) :
    statsCalculators.median (sortWeights l) = statsCalculators.median l :=
  median_perm (sortWeights_perm l)

/-- C7: whenever a chunk validates, the chunk step appends the cleaned
records and then, exactly when the shared weight buffer has grown past
100,000 entries, replaces it by the single-element buffer holding the
buffer's median (the buffer is sorted first, which leaves the median
unchanged), so subsequent weights are appended after that one synthetic
value; and the final global weight summary consists of the max, min and
median of whatever remains in the possibly-compacted buffer at stream
end. -/
theorem claim_C7 :
    (∀ (s : StreamState) (chunk : JSVal) (clean : List JSItem),
        validateAndCleanData chunk = .ok clean →
        processChunk s chunk =
          .ok (let s1 := clean.foldl processItem s
               if 100000 < s1.weights.length then
                 { s1 with weights := [.fin (statsCalculators.median s1.weights)] }
               else s1))
  ∧ (∀ (dataStream : List JSVal) (st : StreamState),
        dataStream.foldlM processChunk initState = .ok st →
        calculateStatisticsStream dataStream = .ok
          { byRegion := (finalizeStream st).byRegion
            byResource := (finalizeStream st).byResource
            globalWeight :=
              { max := statsCalculators.max st.weights
                min := statsCalculators.min st.weights
                median := statsCalculators.median st.weights } }) := by
  constructor
  · intro s chunk clean h
    simp only [processChunk, h, median_sortWeights]
    split <;> rfl
  · intro dataStream st h
    simp only [calculateStatisticsStream, h]
    rfl

/-- Witness for C7 on the empty chunk and the empty stream. -/
theorem claim_C7_witness :
    (processChunk initState (.varr []) =
      .ok (let s1 := List.foldl processItem initState ([] : List JSItem)
           if 100000 < s1.weights.length then
             { s1 with weights := [.fin (statsCalculators.median s1.weights)] }
           else s1))
  ∧ calculateStatisticsStream [] = .ok
      { byRegion := (finalizeStream initState).byRegion
        byResource := (finalizeStream initState).byResource
        globalWeight :=
          { max := statsCalculators.max initState.weights
            min := statsCalculators.min initState.weights
            median := statsCalculators.median initState.weights } } :=
  ⟨claim_C7.1 initState (.varr []) [] rfl, claim_C7.2 [] initState rfl⟩

/-! ## Claim C9: the weight buffer is bounded between chunks -/

theorem foldl_processItem_weights :
    ∀ (l : List JSItem) (s : StreamState),
      (l.foldl processItem s).weights = s.weights ++ l.map weightOf
  | [], s => by simp
  | a :: l, s => by
      rw [List.foldl_cons, foldl_processItem_weights l (processItem s a)]
      simp [processItem, List.append_assoc]

theorem processChunk_ok_bound (s : StreamState) (c : JSVal) (st : StreamState)
    (h : processChunk s c = .ok st) : st.weights.length ≤ 100000 := by
  rw [processChunk] at h
  rcases hv : validateAndCleanData c with e | clean
  · rw [hv] at h; cases h
  · rw [hv] at h
    simp only at h
    split at h
    · cases h; simp
    · cases h; omega

theorem foldlM_processChunk_bound :
    ∀ (chunks : List JSVal) (s st : StreamState),
      s.weights.length ≤ 100000 → chunks.foldlM processChunk s = .ok st →
      st.weights.length ≤ 100000
  | [], s, st, hs, h => by cases h; exact hs
  | c :: cs, s, st, hs, h => by
      rw [List.foldlM_cons] at h
      rcases hc : processChunk s c with e | s1
      · rw [hc] at h; cases h
      · rw [hc] at h
        exact foldlM_processChunk_bound cs s1 st (processChunk_ok_bound s c s1 hc) h

/-- C9: after every fully processed chunk prefix the shared weight buffer
holds at most 100,000 entries; within a chunk the buffer can exceed the
bound only by at most the number of records appended so far from that
chunk, since the compaction check runs once per chunk after all its
records; and the bound really can be exceeded mid-chunk, e.g. by a single
validated chunk of 100,001 records. -/
theorem claim_C9 :
    (∀ (chunks : List JSVal) (n : ℕ) (st : StreamState),
        (chunks.take n).foldlM processChunk initState = .ok st →
        st.weights.length ≤ 100000)
  ∧ (∀ (s : StreamState) (clean : List JSItem) (k : ℕ),
        ((clean.take k).foldl processItem s).weights.length ≤ s.weights.length + k)
  ∧ (∃ (chunk : JSVal) (clean : List JSItem),
        validateAndCleanData chunk = .ok clean ∧
        100000 < (clean.foldl processItem initState).weights.length) := by
  refine ⟨?_, ?_, ?_⟩
  · intro chunks n st h
    exact foldlM_processChunk_bound (chunks.take n) initState st (by simp [initState]) h
  · intro s clean k
    rw [foldl_processItem_weights]
    simp only [List.length_append, List.length_map, List.length_take]
    omega
  · refine ⟨.varr (List.replicate 100001 recA), List.replicate 100001 recA, ?_, ?_⟩
    · have hnn : ∀ i ∈ List.replicate 100001 recA, isNullish i = false := by
        intro i hi
        rw [List.eq_of_mem_replicate hi]
        with_unfolding_all decide
      have hflt : (List.replicate 100001 recA).filter keepRecord =
          List.replicate 100001 recA :=
        List.filter_eq_self.mpr (fun a ha => by
          rw [List.eq_of_mem_replicate ha]; with_unfolding_all decide)
      have h1 : validateAndCleanData (.varr (List.replicate 100001 recA)) =
          filterValid (List.replicate 100001 recA) := rfl
      rw [h1, filterValid_eq_filter _ hnn, hflt]
    · rw [foldl_processItem_weights]
      have h2 : initState.weights = [] := rfl
      rw [h2, List.nil_append, List.length_map, List.length_replicate]
      norm_num

/-- Witness for C9 on a one-chunk stream of one record. -/
theorem claim_C9_witness :
    ([JSVal.varr [recA]].take 1).foldlM processChunk initState =
      .ok (processItem initState recA) ∧
    (processItem initState recA).weights.length ≤ 100000 :=
  ⟨by with_unfolding_all decide,
   claim_C9.1 [.varr [recA]] 1 (processItem initState recA)
     (by with_unfolding_all decide)⟩

/-! ## Claim C4: chunking is not observable in byRegion and byResource -/

theorem foldl_processItem_byRegion :
    ∀ (l : List JSItem) (s : StreamState),
      (l.foldl processItem s).byRegion =
        l.foldl (fun g it => mapPush g (getField it "region") (valOf it)) s.byRegion
  | [], _ => rfl
  | a :: l, s => by
      rw [List.foldl_cons, foldl_processItem_byRegion l (processItem s a), List.foldl_cons]
      rfl

theorem foldl_processItem_byResource :
    ∀ (l : List JSItem) (s : StreamState),
      (l.foldl processItem s).byResource =
        l.foldl (fun g it => mapPush g (getField it "resource") (valOf it)) s.byResource
  | [], _ => rfl
  | a :: l, s => by
      rw [List.foldl_cons, foldl_processItem_byResource l (processItem s a), List.foldl_cons]
      rfl

theorem mapPush_map_value {K : Type} [DecidableEq K] (f : JSItem → JSNum) :
    ∀ (g : List (K × List JSItem)) (k : K) (item : JSItem),
      mapPush (g.map (fun kv => (kv.1, kv.2.map f))) k (f item) =
        (mapPush g k item).map (fun kv => (kv.1, kv.2.map f))
  | [], _, _ => rfl
  | (k', vs) :: rest, k, item => by
      by_cases h : k' = k
      · simp [mapPush, h]
      · simp [mapPush, h, mapPush_map_value f rest k item]

theorem foldl_mapPush_map {K : Type} [DecidableEq K] (key : JSItem → K) (f : JSItem → JSNum) :
    ∀ (l : List JSItem) (g : List (K × List JSItem)),
      l.foldl (fun acc it => mapPush acc (key it) (f it))
          (g.map (fun kv => (kv.1, kv.2.map f))) =
        (l.foldl (fun acc it => mapPush acc (key it) it) g).map
          (fun kv => (kv.1, kv.2.map f))
  | [], _ => rfl
  | a :: l, g => by
      rw [List.foldl_cons, List.foldl_cons, mapPush_map_value f g (key a) a]
      exact foldl_mapPush_map key f l (mapPush g (key a) a)

theorem stream_byRegion_eq (clean : List JSItem) :
    (clean.foldl processItem initState).byRegion =
      (performantGroupBy clean (fun it => getField it "region")).map
        (fun kv => (kv.1, kv.2.map valOf)) := by
  rw [foldl_processItem_byRegion]
  have h0 : (initState.byRegion : List (JSField × List JSNum)) =
      ([] : List (JSField × List JSItem)).map (fun kv => (kv.1, kv.2.map valOf)) := rfl
  rw [h0, foldl_mapPush_map]
  rfl

theorem stream_byResource_eq (clean : List JSItem) :
    (clean.foldl processItem initState).byResource =
      (performantGroupBy clean (fun it => getField it "resource")).map
        (fun kv => (kv.1, kv.2.map valOf)) := by
  rw [foldl_processItem_byResource]
  have h0 : (initState.byResource : List (JSField × List JSNum)) =
      ([] : List (JSField × List JSItem)).map (fun kv => (kv.1, kv.2.map valOf)) := rfl
  rw [h0, foldl_mapPush_map]
  rfl

theorem foldlM_processChunk_no_compact :
    ∀ (chunks : List (List JSItem)) (s : StreamState),
      (∀ c ∈ chunks, ∀ i ∈ c, isNullish i = false) →
      s.weights.length + (chunks.flatten.filter keepRecord).length ≤ 100000 →
      (chunks.map JSVal.varr).foldlM processChunk s =
        .ok ((chunks.flatten.filter keepRecord).foldl processItem s)
  | [], s, _, _ => rfl
  | c :: cs, s, hnn, hb => by
      have hsplit : ((c :: cs).flatten.filter keepRecord) =
          c.filter keepRecord ++ cs.flatten.filter keepRecord := by
        rw [List.flatten_cons, List.filter_append]
      have hblen : s.weights.length + ((c.filter keepRecord).length +
          (cs.flatten.filter keepRecord).length) ≤ 100000 := by
        have := hb
        rw [hsplit, List.length_append] at this
        omega
      have hc : validateAndCleanData (.varr c) = .ok (c.filter keepRecord) :=
        filterValid_eq_filter c (hnn c (List.mem_cons_self c cs))
      have hw : ((c.filter keepRecord).foldl processItem s).weights.length =
          s.weights.length + (c.filter keepRecord).length := by
        rw [foldl_processItem_weights, List.length_append, List.length_map]
      have hnc : ¬ 100000 < ((c.filter keepRecord).foldl processItem s).weights.length := by
        rw [hw]; omega
      have hstep : processChunk s (.varr c) =
          .ok ((c.filter keepRecord).foldl processItem s) := by
        simp only [processChunk, hc]
        rw [if_neg hnc]
      rw [List.map_cons, List.foldlM_cons, hstep]
      have hrec := foldlM_processChunk_no_compact cs
        ((c.filter keepRecord).foldl processItem s)
        (fun c' hc' => hnn c' (List.mem_cons_of_mem c hc'))
        (by rw [hw]; omega)
      show ((c :: cs).map JSVal.varr).tail.foldlM processChunk
          ((c.filter keepRecord).foldl processItem s) = _
      rw [List.map_cons]
      show (cs.map JSVal.varr).foldlM processChunk
          ((c.filter keepRecord).foldl processItem s) = _
      rw [hrec, hsplit, List.foldl_append]

theorem buildBatch_byRegion (clean : List JSItem) :
    (buildBatch clean).byRegion =
      (performantGroupBy clean (fun it => getField it "region")).foldl
        (fun o kv => assocSet o (fieldToString kv.1)
          (createStatsSummary (kv.2.map valOf))) [] := rfl

theorem buildBatch_byResource (clean : List JSItem) :
    (buildBatch clean).byResource =
      (performantGroupBy clean (fun it => getField it "resource")).foldl
        (fun o kv => assocSet o (fieldToString kv.1)
          (createStatsSummary (kv.2.map valOf))) [] := rfl

/-- C4: for a record sequence with at least one valid record and any
chunking of it, as long as the validated set holds at most 100,000 records
(so the shared weight buffer never exceeds the compaction threshold), the
streaming run succeeds and produces exactly the byRegion and byResource
summaries of the batch run over the whole sequence: chunk boundaries are
not observable in those outputs. -/
theorem claim_C4 (records : List JSItem) (chunks : List (List JSItem))
    (hchunks : chunks.flatten = records)
    (clean : List JSItem)
    (hclean : validateAndCleanData (.varr records) = .ok clean)
    (hne : clean ≠ [])
    (hbound : clean.length ≤ 100000) :
    ∃ res sres,
      calculateStatistics (.varr records) = .ok res ∧
      calculateStatisticsStream (chunks.map .varr) = .ok sres ∧
      sres.byRegion = res.byRegion ∧ sres.byResource = res.byResource := by
  have hfv : filterValid records = .ok clean := hclean
  have hnn : ∀ i ∈ records, isNullish i = false :=
    filterValid_ok_no_nullish records clean hfv
  have hcleanf : clean = records.filter keepRecord := by
    have := hfv.symm.trans (filterValid_eq_filter records hnn)
    exact (Except.ok.injEq _ _).mp this
  have hlen : clean.length ≠ 0 := fun h => hne (List.length_eq_zero.mp h)
  have hbatch : calculateStatistics (.varr records) = .ok (buildBatch clean) := by
    simp only [calculateStatistics, hclean]
    rw [if_neg hlen]
  have hchnn : ∀ c ∈ chunks, ∀ i ∈ c, isNullish i = false := by
    intro c hc i hi
    exact hnn i (hchunks ▸ List.mem_flatten.mpr ⟨c, hc, hi⟩)
  have hfold : (chunks.map JSVal.varr).foldlM processChunk initState =
      .ok (clean.foldl processItem initState) := by
    have h0 : (initState.weights).length = 0 := rfl
    have := foldlM_processChunk_no_compact chunks initState hchnn
      (by rw [h0, hchunks, ← hcleanf]; omega)
    rw [hchunks, ← hcleanf] at this
    exact this
  have hstream : calculateStatisticsStream (chunks.map .varr) =
      .ok (finalizeStream (clean.foldl processItem initState)) := by
    simp only [calculateStatisticsStream, hfold]
  refine ⟨buildBatch clean, finalizeStream (clean.foldl processItem initState),
    hbatch, hstream, ?_, ?_⟩
  · show (clean.foldl processItem initState).byRegion.foldl
        (fun o kv => assocSet o (fieldToString kv.1) (createStatsSummary kv.2)) [] =
      (buildBatch clean).byRegion
    rw [stream_byRegion_eq, buildBatch_byRegion, List.foldl_map]
  · show (clean.foldl processItem initState).byResource.foldl
        (fun o kv => assocSet o (fieldToString kv.1) (createStatsSummary kv.2)) [] =
      (buildBatch clean).byResource
    rw [stream_byResource_eq, buildBatch_byResource, List.foldl_map]

set_option maxRecDepth 16384 in
/-- Witness for C4: two records fed as one batch and as two singleton
chunks give the same byRegion and byResource summaries. -/
theorem claim_C4_witness :
    ∃ res sres,
      calculateStatistics (.varr [recA, recC]) = .ok res ∧
      calculateStatisticsStream ([[recA], [recC]].map .varr) = .ok sres ∧
      sres.byRegion = res.byRegion ∧ sres.byResource = res.byResource := by
  refine claim_C4 [recA, recC] [[recA], [recC]] rfl [recA, recC] ?_ ?_ ?_
  · with_unfolding_all decide
  · with_unfolding_all decide
  · with_unfolding_all decide
